import Mathlib

/-!
Verification of the résumé extraction engine in `ResumeAnalyzer.py`.

Strings are embedded as `List Char` (Python `str` over its code points).
Each Python function of the extraction core is translated to a Lean
definition of the same name; the regular expressions the code builds are
translated to explicit scanning functions realising exactly the search
semantics of CPython `re` on the concrete pattern the code constructs.
-/

namespace ResumeAnalyzer

/-- Python `str.upper()` restricted to the ASCII range actually exercised by
the analyzer (headings and resume text are ASCII in every call site). -/
def upper (s : List Char) : List Char := s.map Char.toUpper

/-- Python substring containment `pat in s`: some suffix of `s` starts with
`pat` (true for the empty pattern, as in Python). -/
def isSub (pat : List Char) : List Char → Bool
  | [] => pat.isEmpty
  | c :: cs => List.isPrefixOf pat (c :: cs) || isSub pat cs

/-- Python `str.lower()` restricted likewise to ASCII. -/
def lower (s : List Char) : List Char := s.map Char.toLower

/-- Python whitespace for `str.strip()` with no argument: space, tab,
newline, carriage return, vertical tab, form feed. -/
def pyIsSpace (c : Char) : Bool :=
  c = ' ' || c = '\t' || c = '\n' || c = '\r' || c.toNat = 11 || c.toNat = 12

/-- Both-ended strip underlying Python `str.strip` and `str.strip(chars)`:
drop the longest run satisfying `p` from the front and from the back. -/
def stripEnds (p : Char → Bool) (s : List Char) : List Char :=
  ((s.dropWhile p).reverse.dropWhile p).reverse

/-- Python `str.strip()`: remove leading and trailing whitespace. -/
def pyStrip (s : List Char) : List Char := stripEnds pyIsSpace s

/-- Python `str.strip(chars)`: remove leading and trailing characters that
belong to the given set. -/
def pyStripChars (set : List Char) (s : List Char) : List Char :=
  stripEnds (· ∈ set) s

/-- Python `str.split(sep)` for a one-character separator: always yields
one more piece than there are separators (`"".split(",") == [""]`). -/
def pySplit (sep : Char) : List Char → List (List Char)
  | [] => [[]]
  | c :: cs =>
    if c = sep then [] :: pySplit sep cs
    else
      match pySplit sep cs with
      | [] => [[c]]
      | p :: ps => (c :: p) :: ps

/-- Python `str.splitlines()` restricted to the `\n`, `\r\n` and `\r`
terminators occurring in extracted PDF text: terminators are not kept and a
trailing terminator produces no trailing empty line. -/
def pySplitlines : List Char → List (List Char)
  | [] => []
  | '\r' :: '\n' :: cs => [] :: pySplitlines cs
  | '\n' :: cs => [] :: pySplitlines cs
  | '\r' :: cs => [] :: pySplitlines cs
  | c :: cs =>
    match pySplitlines cs with
    | [] => [[c]]
    | p :: ps => (c :: p) :: ps

/-! ## Section segmenter (`extract_section`, lines 38-41)

The code executes
`re.search(rf"{section.upper()}(.*?)(?=\n(?:{'|'.join(stop_sections).upper()}|$))", text, re.DOTALL)`.
The pattern is the upper-cased heading, a lazy group, and a lookahead
demanding a newline followed by one of the upper-cased stop headings or by
the `$` anchor (end of text, or just before a final newline).  When the
stop list is empty the join is the empty string and the alternation
`(?:|$)` contains an empty branch that matches everywhere.  Headings and
stop names are interpolated verbatim; throughout we model them as regex
literals, which they are at every call site. -/

/-- The `$`-anchor branch of the lookahead: at the given suffix of the
text, `$` matches when the suffix is empty or is a single final newline. -/
def endAnchor : List Char → Bool
  | [] => true
  | ['\n'] => true
  | _ => false

/-- The alternation `(?:STOP1|...|STOPn|$)` applied at a suffix `r` of the
text.  An empty stop list yields the pattern `(?:|$)` whose empty branch
always matches. -/
def stopCondL (stops : List (List Char)) (r : List Char) : Bool :=
  stops.isEmpty || stops.any (fun s => List.isPrefixOf (upper s) r) || endAnchor r

/-- The whole lookahead `(?=\n(?:...|$))` applied at a suffix of the text:
a newline whose continuation satisfies the stop alternation. -/
def lookL (stops : List (List Char)) : List Char → Bool
  | [] => false
  | c :: rest => c = '\n' && stopCondL stops rest

/-- Index of the first position of the suffix where the lookahead holds:
the lazy group `(.*?)` stops at the earliest such position. -/
def findStop (stops : List (List Char)) : List Char → Option Nat
  | [] => none
  | c :: cs =>
    if lookL stops (c :: cs) then some 0
    else (findStop stops cs).map (· + 1)

/-- Attempt of the full pattern at one start position (a suffix `r` of the
text): the upper-cased heading must be a literal prefix, then the lazy
group runs to the first position satisfying the lookahead. -/
def trySec (hup : List Char) (stops : List (List Char)) (r : List Char) : Option (List Char) :=
  if List.isPrefixOf hup r then
    (findStop stops (r.drop hup.length)).map (fun j => (r.drop hup.length).take j)
  else none

/-- The `re.search` scan: try each start position left to right and return
the group of the first position where the whole pattern matches. -/
def searchSec (hup : List Char) (stops : List (List Char)) : List Char → Option (List Char)
  | [] => none
  | c :: cs => (trySec hup stops (c :: cs)).orElse (fun _ => searchSec hup stops cs)

/-- Lines 38-41: `extract_section(text, section, stop_sections)` returns the
trimmed group of the regex search, or the sentinel `"Not found"`. -/
def extract_section (text sec : List Char) (stops : List (List Char)) : List Char :=
  match searchSec (upper sec) stops text with
  | some g => pyStrip g
  | none => "Not found".data

/-- Variant of `extract_section` recording whether the `re.search` call can
run at all.  The code interpolates `section` and each stop name into the
pattern verbatim; a name made only of letters, digits and spaces (the case
at every call site) is a regex literal and the pattern compiles, while
names containing regex metacharacters are passed unescaped — a heading such
as `"("` produces an unbalanced group and `re.compile` raises `re.error`
before any matching happens.  The error region below is marked
conservatively (any character outside the literal alphabet); the concrete
error instances used in theorems are inputs on which CPython does raise. -/
def reLiteralChar (c : Char) : Bool := c.isAlphanum || c = ' '

/-- Section extraction as a fallible computation: `.ok` carries the value
returned by `extract_section`, `.error` marks pattern-compilation failure
(`re.error`) for headings or stop names outside the regex-literal alphabet. -/
def extract_section_exc (text sec : List Char) (stops : List (List Char)) :
    Except (List Char) (List Char) :=
  if sec.all reLiteralChar && stops.all (fun s => s.all reLiteralChar) then
    .ok (extract_section text sec stops)
  else
    .error "re.error".data

/-! ## Style-aware segmenter (`extract_bold_lines_from_section`, lines 15-35)

The code walks `page → block → line → span` in document order with a
mutable `inside_section` flag.  A span is a dict `{text, font, flags}`. -/

/-- One positioned text span with its font name and style-flag bitmask. -/
structure Span where
  text : List Char
  font : List Char
  flags : Nat
deriving DecidableEq

/-- A document as the nested page/block/line/span structure produced by
`page.get_text("dict")["blocks"]`. -/
abbrev Doc := List (List (List (List Span)))

/-- The spans of a document in the order the nested loops of lines 20-24
visit them. -/
def allSpans (doc : Doc) : List Span :=
  (doc.map (fun page => (page.map (fun block => block.flatten)).flatten)).flatten

/-- Bold test of line 33: the font name contains `"bold"` (lower-cased) or
bit 1 of the flag mask is set (`flags & 2` is truthy). -/
def isBold (sp : Span) : Bool :=
  isSub "bold".data (lower sp.font) || sp.flags.testBit 1

/-- Heading test of line 28 on a stripped span text: case-insensitive
containment realised by upper-casing both sides. -/
def headMatch (sec t : List Char) : Bool :=
  isSub (upper sec) (upper t)

/-- Stop test of line 31: some stop word (verbatim, as passed) is contained
in the upper-cased span text. -/
def stopMatch (stops : List (List Char)) (t : List Char) : Bool :=
  stops.any (fun s => isSub s (upper t))

/-- One iteration of the span loop (lines 25-34) on the running state
`(inside_section, bold_lines)`. -/
def spanStep (sec : List Char) (stops : List (List Char))
    (st : Bool × List (List Char)) (sp : Span) : Bool × List (List Char) :=
  let t := pyStrip sp.text
  if t = [] then st
  else if headMatch sec t then (true, st.2)
  else
    let inside := if stopMatch stops t then false else st.1
    if inside && isBold sp then (inside, st.2 ++ [t]) else (inside, st.2)

/-- The bold lines collected by the loop, before the sentinel fallback of
line 35. -/
def collectBold (doc : Doc) (sec : List Char) (stops : List (List Char)) :
    List (List Char) :=
  (List.foldl (spanStep sec stops) (false, []) (allSpans doc)).2

/-- Sentinel of line 35: `f"No bold lines found in {section_name.upper()}"`. -/
def noBoldMsg (sec : List Char) : List Char :=
  "No bold lines found in ".data ++ upper sec

/-- Lines 15-35: collected bold lines, or the one-element sentinel list
when nothing was collected. -/
def extract_bold_lines_from_section (doc : Doc) (sec : List Char)
    (stops : List (List Char)) : List (List Char) :=
  let acc := collectBold doc sec stops
  if acc = [] then [noBoldMsg sec] else acc

/-! ## Field extractors (lines 44-100) -/

/-- Lines 44-45: `extract_certificates` — one entry per non-blank line of
the section text, with `•`, `-` and space stripped from the line by
`line.strip("•- ")` (both ends, as `str.strip` does). -/
def bulletChars : List Char := ['•', '-', ' ']

/-- Lines 44-45 translated: filter the non-blank lines, then strip the
bullet character set from both ends of each. -/
def extract_certificates (text : List Char) : List (List Char) :=
  ((pySplitlines text).filter (fun l => !(pyStrip l).isEmpty)).map (pyStripChars bulletChars)

/-- Character class `[A-Za-z, ]` of the `LANGUAGES` regex (line 48). -/
def langChar (c : Char) : Bool := c.isAlpha || c = ',' || c = ' '

/-- Scan of `re.search(r"LANGUAGES\n([A-Za-z, ]+)", text)`: the first
position carrying the literal `"LANGUAGES\n"` followed by a non-empty
greedy run of the class `[A-Za-z, ]`; the group is that run. -/
def langFind : List Char → Option (List Char)
  | [] => none
  | c :: cs =>
    if List.isPrefixOf "LANGUAGES\n".data (c :: cs) then
      let run := ((c :: cs).drop "LANGUAGES\n".data.length).takeWhile langChar
      if run = [] then langFind cs else some run
    else langFind cs

/-- Lines 47-49: `extract_languages` — the matched run, stripped then split
on commas (pieces keep their inner spacing), or the one-element sentinel. -/
def extract_languages (text : List Char) : List (List Char) :=
  match langFind text with
  | some run => pySplit ',' (pyStrip run)
  | none => ["Not found".data]

/-- Category-line test of line 59: no colon, and the whole line matches
`^[A-Za-z ]+$` (non-empty, letters and spaces only). -/
def isCatLine (l : List Char) : Bool :=
  !(l.contains ':') && !l.isEmpty && l.all (fun c => c.isAlpha || c = ' ')

/-- Comma-split-and-trim of line 63:
`[item.strip() for item in line.split(",") if item.strip()]`. -/
def splitTrim (line : List Char) : List (List Char) :=
  (pySplit ',' line).filterMap (fun item =>
    let s := pyStrip item
    if s = [] then none else some s)

/-- Insertion-ordered dict write `skills[current] = []`: replace the value
in place when the key exists, append the binding otherwise. -/
def setKey (m : List (List Char × List (List Char))) (k : List Char)
    (v : List (List Char)) : List (List Char × List (List Char)) :=
  match m with
  | [] => [(k, v)]
  | (k', v') :: rest => if k' = k then (k', v) :: rest else (k', v') :: setKey rest k v

/-- Dict update `skills[current] += tokens` for a key already present. -/
def addTokens (m : List (List Char × List (List Char))) (k : List Char)
    (xs : List (List Char)) : List (List Char × List (List Char)) :=
  m.map (fun p => if p.1 = k then (p.1, p.2 ++ xs) else p)

/-- Value lookup in the insertion-ordered dict model. -/
def getVal : List (List Char × List (List Char)) → List Char → Option (List (List Char))
  | [], _ => none
  | (k', v) :: m, k => if k' = k then some v else getVal m k

/-- One iteration of the skills loop (lines 55-63) on the state
`(skills, current)`. -/
def skillsStep (st : List (List Char × List (List Char)) × Option (List Char))
    (raw : List Char) : List (List Char × List (List Char)) × Option (List Char) :=
  let line := pyStrip raw
  if line = [] then st
  else if isCatLine line then (setKey st.1 line [], some line)
  else
    match st.2 with
    | some k => (addTokens st.1 k (splitTrim line), st.2)
    | none => st

/-- Lines 51-64: `parse_skills` — fold the loop over the lines and return
the category map. -/
def parse_skills (skills_text : List Char) : List (List Char × List (List Char)) :=
  (List.foldl skillsStep ([], none) (pySplitlines skills_text)).1

/-- Character class `[\w\.-]` of the email regex (line 67), over ASCII. -/
def emailChar (c : Char) : Bool := c.isAlphanum || c = '_' || c = '.' || c = '-'

/-- Word character of `\w` / `\b` (line 71), over ASCII. -/
def isWordCh (c : Char) : Bool := c.isAlphanum || c = '_'

/-- Attempt of `[\w\.-]+@[\w\.-]+` at one start position: a non-empty
greedy class run, a literal `@` (which the class excludes, so the greedy
run cannot backtrack past it), and a second non-empty class run. -/
def emailAt (l : List Char) : Option (List Char) :=
  let r1 := l.takeWhile emailChar
  let rest := l.drop r1.length
  if r1 ≠ [] ∧ rest.head? = some '@' then
    let r2 := rest.tail.takeWhile emailChar
    if r2 = [] then none else some (r1 ++ '@' :: r2)
  else none

/-- The `re.search` scan for the email pattern. -/
def emailFind : List Char → Option (List Char)
  | [] => none
  | c :: cs => (emailAt (c :: cs)).orElse (fun _ => emailFind cs)

/-- Lines 66-68: `extract_email`. -/
def extract_email (text : List Char) : List Char :=
  match emailFind text with
  | some m => m
  | none => "Not found".data

/-- Match of `\b\d{10}\b` at one position, given the character preceding
the position (`none` at the start of the text): both boundaries must
separate a word character from a non-word character, and ten digits are
word characters. -/
def phoneAt (prev : Option Char) (l : List Char) : Bool :=
  (match prev with | none => true | some c => !isWordCh c) &&
  decide (10 ≤ l.length) && ((l.take 10).all Char.isDigit) &&
  (match (l.drop 10).head? with | none => true | some c => !isWordCh c)

/-- The `re.search` scan for the phone pattern, threading the previous
character for the left word boundary. -/
def phoneFind : Option Char → List Char → Option (List Char)
  | _, [] => none
  | prev, c :: cs =>
    if phoneAt prev (c :: cs) then some ((c :: cs).take 10)
    else phoneFind (some c) cs

/-- Lines 70-72: `extract_phone`. -/
def extract_phone (text : List Char) : List Char :=
  match phoneFind none text with
  | some m => m
  | none => "Not found".data

/-- Ten consecutive digits of the text starting at position `i`. -/
def windowDigits (t : List Char) (i : Nat) : Bool :=
  decide (10 ≤ (t.drop i).length) && ((t.drop i).take 10).all Char.isDigit

/-- Some character adjacent to the ten-digit window at position `i` is
itself a digit — i.e. the window sits inside a strictly longer digit run. -/
def neighborDigit (t : List Char) (i : Nat) : Bool :=
  (if i = 0 then false else ((t.drop (i - 1)).head?.getD ' ').isDigit) ||
  ((t.drop (i + 10)).head?.getD ' ').isDigit

/-- Character class `[A-Za-z ]` of the name regex (line 75). -/
def nameChar (c : Char) : Bool := c.isAlpha || c = ' '

/-- Lines 74-76: `extract_name` — `re.match(r"^[A-Za-z ]+", text)` is the
greedy leading run of the class; an empty run is a failed match. -/
def extract_name (text : List Char) : List Char :=
  let run := text.takeWhile nameChar
  if run = [] then "Not found".data else pyStrip run

/-- Match of `\bRajahmundry.*` at one position: left word boundary, the
literal city name, then (without `re.DOTALL`) the rest of the line. -/
def locFind : Option Char → List Char → Option (List Char)
  | _, [] => none
  | prev, c :: cs =>
    if (match prev with | none => true | some p => !isWordCh p) &&
        List.isPrefixOf "Rajahmundry".data (c :: cs) then
      some ((c :: cs).takeWhile (· ≠ '\n'))
    else locFind (some c) cs

/-- Lines 78-80: `extract_location`. -/
def extract_location (text : List Char) : List Char :=
  match locFind none text with
  | some m => pyStrip m
  | none => "Not found".data

/-! ## Education bucketing (`parse_education`, lines 83-100) -/

/-- The three education buckets the loop can make current. -/
inductive EduB | bt | im | tenth
deriving DecidableEq

/-- The keyword tests of lines 90-95, on the lower-cased line, selecting
the new current bucket (or keeping the previous one). -/
def eduStep (st : Option EduB) (line : List Char) : Option EduB :=
  let l := lower line
  if isSub "bachelor".data l || isSub "b.tech".data l || isSub "engineering".data l then some .bt
  else if isSub "intermediate".data l || isSub "junior college".data l then
    some .im
  else if isSub "secondary education".data l || isSub "high school".data l then
    some .tenth
  else st

/-- The pre-processed lines of line 86: non-blank lines with the bullet set
stripped: `[line.strip("•- ") for line in edu_text.splitlines() if line.strip()]`. -/
def eduLines (text : List Char) : List (List Char) :=
  ((pySplitlines text).filter (fun l => !(pyStrip l).isEmpty)).map (pyStripChars bulletChars)

/-- The loop of lines 88-98, carrying the three buckets and the current
destination. -/
def parse_education_go (b i s : List (List Char)) (cur : Option EduB) :
    List (List Char) → List (List Char) × List (List Char) × List (List Char)
  | [] => (b, i, s)
  | l :: ls =>
    match eduStep cur l with
    | none => parse_education_go b i s none ls
    | some .bt => parse_education_go (b ++ [l]) i s (some .bt) ls
    | some .im => parse_education_go b (i ++ [l]) s (some .im) ls
    | some .tenth => parse_education_go b i (s ++ [l]) (some .tenth) ls

/-- Lines 83-100: `parse_education` returns the `(btech, inter, tenth)`
triple. -/
def parse_education (edu_text : List Char) :
    List (List Char) × List (List Char) × List (List Char) :=
  parse_education_go [] [] [] none (eduLines edu_text)

/-- Tagged trace of the education loop: each line paired with the bucket
that is current when it is processed (`none` when it is dropped). -/
def eduTags (cur : Option EduB) : List (List Char) → List (List Char × Option EduB)
  | [] => []
  | l :: ls =>
    let cur' := eduStep cur l
    (l, cur') :: eduTags cur' ls

/-- Lines of a tagged trace destined for one bucket. -/
def tagPick (tg : EduB) (tags : List (List Char × Option EduB)) : List (List Char) :=
  tags.filterMap (fun p => if p.2 = some tg then some p.1 else none)

/-! ## General lemmas about the string utilities -/

theorem dropWhile_head_false (p : Char → Bool) (l : List Char) (a : Char)
    (h : (l.dropWhile p).head? = some a) : p a = false := by
  induction l with
  | nil => simp at h
  | cons c cs ih =>
    by_cases hc : p c
    · simp [List.dropWhile_cons, hc] at h
      exact ih h
    · simp [List.dropWhile_cons, hc] at h
      subst h
      simpa using hc

theorem stripEnds_getLast (p : Char → Bool) (l : List Char) (a : Char)
    (h : (stripEnds p l).getLast? = some a) : p a = false := by
  unfold stripEnds at h
  rw [List.getLast?_reverse] at h
  exact dropWhile_head_false p _ a h

theorem stripEnds_head (p : Char → Bool) (l : List Char) (a : Char)
    (h : (stripEnds p l).head? = some a) : p a = false := by
  unfold stripEnds at h
  rw [List.head?_reverse] at h
  rcases List.dropWhile_suffix (l := (l.dropWhile p).reverse) p with ⟨w, hw⟩
  have hZ : ((l.dropWhile p).reverse).getLast? = some a := by
    rw [← hw, List.getLast?_append, h]
    rfl
  rw [List.getLast?_reverse] at hZ
  exact dropWhile_head_false p l a hZ

theorem stripEnds_subset (p : Char → Bool) (l : List Char) (a : Char)
    (h : a ∈ stripEnds p l) : a ∈ l := by
  unfold stripEnds at h
  rw [List.mem_reverse] at h
  have h1 : a ∈ (l.dropWhile p).reverse := (List.dropWhile_sublist p).mem h
  rw [List.mem_reverse] at h1
  exact (List.dropWhile_sublist p).mem h1

theorem dropWhile_of_head_false (p : Char → Bool) (l : List Char)
    (h : ∀ a, l.head? = some a → p a = false) : l.dropWhile p = l := by
  cases l with
  | nil => rfl
  | cons c cs => simp [List.dropWhile_cons, h c rfl]

theorem stripEnds_of_clean (p : Char → Bool) (l : List Char)
    (h1 : ∀ a, l.head? = some a → p a = false)
    (h2 : ∀ a, l.getLast? = some a → p a = false) : stripEnds p l = l := by
  unfold stripEnds
  rw [dropWhile_of_head_false p l h1]
  rw [dropWhile_of_head_false p l.reverse (fun a ha => h2 a (by rwa [List.head?_reverse] at ha))]
  exact List.reverse_reverse l

theorem stripEnds_idem (p : Char → Bool) (l : List Char) :
    stripEnds p (stripEnds p l) = stripEnds p l :=
  stripEnds_of_clean p _ (stripEnds_head p l) (stripEnds_getLast p l)

theorem pyStrip_idem (l : List Char) : pyStrip (pyStrip l) = pyStrip l :=
  stripEnds_idem pyIsSpace l

theorem pyStrip_subset (l : List Char) (a : Char) (h : a ∈ pyStrip l) : a ∈ l :=
  stripEnds_subset pyIsSpace l a h

theorem pySplit_ne_nil (sep : Char) (l : List Char) : pySplit sep l ≠ [] := by
  cases l with
  | nil => simp [pySplit]
  | cons c cs =>
    by_cases hc : c = sep
    · simp [pySplit, hc]
    · rcases h : pySplit sep cs with _ | ⟨p, ps⟩ <;> simp [pySplit, hc, h]

theorem pySplit_sep_not_mem (sep : Char) (l : List Char) (piece : List Char)
    (h : piece ∈ pySplit sep l) : sep ∉ piece := by
  induction l generalizing piece with
  | nil =>
    simp [pySplit] at h
    simp [h]
  | cons c cs ih =>
    by_cases hc : c = sep
    · simp [pySplit, hc] at h
      rcases h with h | h
      · simp [h]
      · exact ih piece h
    · rcases hsp : pySplit sep cs with _ | ⟨p, ps⟩
      · exact absurd hsp (pySplit_ne_nil sep cs)
      · simp [pySplit, hc, hsp] at h
        rcases h with h | h
        · subst h
          have hp : sep ∉ p := ih p (by simp [hsp])
          simp [hc, hp]
          intro hcontra
          exact hc hcontra.symm
        · exact ih piece (by simp [hsp, h])

theorem pySplit_of_not_mem (sep : Char) (l : List Char) (h : sep ∉ l) :
    pySplit sep l = [l] := by
  induction l with
  | nil => rfl
  | cons c cs ih =>
    have hc : ¬ c = sep := fun hcc => h (by simp [hcc])
    have hcs : sep ∉ cs := fun hm => h (by simp [hm])
    simp [pySplit, hc, ih hcs]

/-! ## Lemmas about the `extract_section` scan -/

theorem searchSec_none_of_absent (hup : List Char) (stops : List (List Char))
    (t : List Char) (h : ¬ hup <:+: t) : searchSec hup stops t = none := by
  induction t with
  | nil => rfl
  | cons c cs ih =>
    have hpre : List.isPrefixOf hup (c :: cs) = false := by
      rcases hb : List.isPrefixOf hup (c :: cs)
      · rfl
      · exact absurd (List.isPrefixOf_iff_prefix.mp hb).isInfix h
    have hcs : ¬ hup <:+: cs := fun hinf => h (List.infix_cons hinf)
    simp [searchSec, trySec, hpre, Option.orElse, ih hcs]

theorem searchSec_found (hup : List Char) (stops : List (List Char))
    (rest : List Char) (j : Nat) (hj : findStop stops rest = some j) :
    searchSec hup stops (hup ++ rest) = some (rest.take j) := by
  rcases ht : hup ++ rest with _ | ⟨c, cs⟩
  · rcases List.append_eq_nil.mp ht with ⟨_, h2⟩
    subst h2
    simp [findStop] at hj
  · have hpre : List.isPrefixOf hup (c :: cs) = true := by
      rw [← ht]
      exact List.isPrefixOf_iff_prefix.mpr (List.prefix_append hup rest)
    have hdrop : (c :: cs).drop hup.length = rest := by
      rw [← ht]
      exact List.drop_left hup rest
    simp [searchSec, trySec, hpre, hdrop, hj, Option.orElse]

theorem findStop_empty_stops (A B : List Char) (hA : '\n' ∉ A) :
    findStop [] (A ++ '\n' :: B) = some A.length := by
  induction A with
  | nil => simp [findStop, lookL, stopCondL]
  | cons a A' ih =>
    have ha : ¬ a = '\n' := fun h => hA (by simp [h])
    have hA' : '\n' ∉ A' := fun h => hA (by simp [h])
    simp [findStop, lookL, ha, ih hA']

theorem findStop_final_newline (S : List (List Char)) (A : List Char) (hA : '\n' ∉ A) :
    findStop S (A ++ ['\n']) = some A.length := by
  induction A with
  | nil => simp [findStop, lookL, stopCondL, endAnchor]
  | cons a A' ih =>
    have ha : ¬ a = '\n' := fun h => hA (by simp [h])
    have hA' : '\n' ∉ A' := fun h => hA (by simp [h])
    simp [findStop, lookL, ha, ih hA']

/-! ## Claim C1 -/

/-- C1 counterexample: the heading `"profile"` occurs verbatim (lower-case)
in the text, yet `extract_section` answers `"Not found"`, because the
pattern is built from `section.upper()` and `re.search` runs without
`re.IGNORECASE`, so only the upper-cased spelling can match. -/
theorem extract_section_lowercase_not_found :
    ("profile".data <:+: "profile\nx\n".data) ∧
    extract_section "profile\nx\n".data "profile".data [] = "Not found".data := by
  constructor
  · exact ⟨[], "\nx\n".data, rfl⟩
  · decide

/-- C1 (amended): `extract_section` matches the upper-cased heading
case-sensitively; whenever `upper(H)` does not occur as a literal substring
of the text, the result is the sentinel `"Not found"` (an occurrence in any
other casing is not found). -/
theorem extract_section_not_found_of_heading_absent (t h : List Char)
    (stops : List (List Char)) (habs : ¬ upper h <:+: t) :
    extract_section t h stops = "Not found".data := by
  unfold extract_section
  rw [searchSec_none_of_absent (upper h) stops t habs]

/-- Witness for the amended C1 theorem at a concrete input. -/
theorem extract_section_not_found_witness :
    extract_section "profile\nx\n".data "Profile".data ["EDUCATION".data] = "Not found".data :=
  extract_section_not_found_of_heading_absent _ _ _ (by decide)

/-! ## Claim C2 -/

/-- C2 counterexample: with heading present and an empty stop list the
returned section is empty — the empty branch of `(?:|$)` lets the lazy
group stop at the first newline, not at end-of-text (expected `"A\nB"`);
and with the heading present, no stop heading and no final newline, the
lookahead can never fire, so the result is `"Not found"` rather than
everything after the heading (expected `"abc"`). -/
theorem extract_section_window_cex :
    extract_section "PROFILE\nA\nB".data "PROFILE".data [] = [] ∧
    "A\nB".data ≠ ([] : List Char) ∧
    extract_section "PROFILEabc".data "PROFILE".data ["EDUCATION".data] = "Not found".data := by
  refine ⟨by decide, by decide, by decide⟩

/-- C2 (amended): when the upper-cased heading starts the text and no
newline intervenes, (1) with an empty stop list the section runs from the
heading to the first newline only, and (2) with any stop list the section
runs to end-of-text provided the text ends with a newline. -/
theorem extract_section_window_amended :
    (∀ h A B, '\n' ∉ A →
      extract_section (upper h ++ A ++ '\n' :: B) h [] = pyStrip A) ∧
    (∀ h A S, '\n' ∉ A →
      extract_section (upper h ++ A ++ ['\n']) h S = pyStrip A) := by
  constructor
  · intro h A B hA
    unfold extract_section
    rw [List.append_assoc]
    rw [searchSec_found (upper h) [] (A ++ '\n' :: B) A.length (findStop_empty_stops A B hA)]
    rw [List.take_left]
  · intro h A S hA
    unfold extract_section
    rw [List.append_assoc]
    rw [searchSec_found (upper h) S (A ++ ['\n']) A.length (findStop_final_newline S A hA)]
    rw [List.take_left]

/-- Witness for the amended C2 theorem at concrete inputs. -/
theorem extract_section_window_witness :
    extract_section (upper "Profile".data ++ " X".data ++ '\n' :: "Y".data)
      "Profile".data [] = pyStrip " X".data ∧
    extract_section (upper "Profile".data ++ " ab".data ++ ['\n'])
      "Profile".data ["EDUCATION".data] = pyStrip " ab".data :=
  ⟨extract_section_window_amended.1 "Profile".data " X".data "Y".data (by decide),
   extract_section_window_amended.2 "Profile".data " ab".data ["EDUCATION".data] (by decide)⟩

/-! ## Claims C3 and C4: the style-aware segmenter -/

theorem spanFold_mem (sec : List Char) (stops : List (List Char)) :
    ∀ (l : List Span) (st : Bool × List (List Char)) (t : List Char),
      t ∈ (List.foldl (spanStep sec stops) st l).2 →
      t ∈ st.2 ∨ (headMatch sec t = false ∧ stopMatch stops t = false) := by
  intro l
  induction l with
  | nil => intro st t ht; exact Or.inl ht
  | cons sp l' ih =>
    intro st t ht
    rw [List.foldl_cons] at ht
    rcases ih (spanStep sec stops st sp) t ht with hmem | hgood
    · simp only [spanStep] at hmem
      split at hmem
      next => exact Or.inl hmem
      next =>
        split at hmem
        next => exact Or.inl hmem
        next h1 =>
          split at hmem
          next =>
            simp at hmem
            exact Or.inl hmem
          next h2 =>
            split at hmem
            next =>
              rw [List.mem_append] at hmem
              rcases hmem with hm | hm
              · exact Or.inl hm
              · rw [List.mem_singleton] at hm
                subst hm
                exact Or.inr ⟨by simpa using h1, by simpa using h2⟩
            next => exact Or.inl hmem
    · exact Or.inr hgood

/-- C3 counterexample: the returned list can contain the trimmed text of a
span that matched the heading.  A document whose only span reads exactly
like the sentinel message matches the heading (the span text contains
`PROFILE`), is consumed without being emitted, and the empty accumulator
then produces the sentinel — which is letter-for-letter that span's trimmed
text. -/
theorem bold_lines_sentinel_collision :
    headMatch "PROFILE".data "No bold lines found in PROFILE".data = true ∧
    pyStrip "No bold lines found in PROFILE".data = "No bold lines found in PROFILE".data ∧
    "No bold lines found in PROFILE".data ∈
      extract_bold_lines_from_section
        [[[[⟨"No bold lines found in PROFILE".data, "F".data, 0⟩]]]] "PROFILE".data [] := by
  refine ⟨by decide, by decide, by decide⟩

/-- C3 (amended): among the collected content (the bold-line accumulator,
before the sentinel fallback of line 35), no entry is the trimmed text of a
heading-matching or stop-matching span: a heading match only flips the
inside flag to true and a stop match only flips it to false, and neither is
appended.  The sentinel fallback element is not collected content and may
coincide textually with such a span. -/
theorem collectBold_no_marker_emitted (doc : Doc) (sec : List Char)
    (stops : List (List Char)) (t : List Char) (ht : t ∈ collectBold doc sec stops) :
    headMatch sec t = false ∧ stopMatch stops t = false := by
  rcases spanFold_mem sec stops (allSpans doc) (false, []) t ht with hmem | hgood
  · simp at hmem
  · exact hgood

/-- Witness for the amended C3 theorem at a concrete document. -/
theorem collectBold_no_marker_witness :
    headMatch "EXPERIENCE".data "Dev".data = false ∧
    stopMatch ["SKILLS".data] "Dev".data = false :=
  collectBold_no_marker_emitted
    [[[[⟨"EXPERIENCE".data, "F".data, 0⟩], [⟨"Dev".data, "F-Bold".data, 0⟩]]]]
    "EXPERIENCE".data ["SKILLS".data] "Dev".data (by decide)

theorem spanFold_snd_of_no_bold (sec : List Char) (stops : List (List Char)) :
    ∀ (l : List Span) (st : Bool × List (List Char)),
      (∀ sp ∈ l, isBold sp = false) →
      (List.foldl (spanStep sec stops) st l).2 = st.2 := by
  intro l
  induction l with
  | nil => intro st _; rfl
  | cons sp l' ih =>
    intro st hl
    rw [List.foldl_cons]
    rw [ih (spanStep sec stops st sp) (fun s hs => hl s (by simp [hs]))]
    have hb : isBold sp = false := hl sp (by simp)
    unfold spanStep
    by_cases h0 : pyStrip sp.text = []
    · simp [h0]
    · by_cases h1 : headMatch sec (pyStrip sp.text) = true
      · simp [h0, h1]
      · simp [h0, h1, hb]

/-- C4: the style-aware segmenter never returns an empty list; when nothing
was collected it returns exactly the one-element sentinel list (line 35),
and in particular it does so whenever the document contains no span
satisfying the bold rule at all. -/
theorem bold_lines_sentinel_fallback (doc : Doc) (sec : List Char)
    (stops : List (List Char)) :
    extract_bold_lines_from_section doc sec stops ≠ [] ∧
    (collectBold doc sec stops = [] →
      extract_bold_lines_from_section doc sec stops = [noBoldMsg sec]) ∧
    ((∀ sp ∈ allSpans doc, isBold sp = false) →
      extract_bold_lines_from_section doc sec stops = [noBoldMsg sec]) := by
  refine ⟨?_, ?_, ?_⟩
  · unfold extract_bold_lines_from_section
    by_cases h : collectBold doc sec stops = [] <;> simp [h]
  · intro h
    unfold extract_bold_lines_from_section
    simp [h]
  · intro h
    have hc : collectBold doc sec stops = [] := by
      unfold collectBold
      rw [spanFold_snd_of_no_bold sec stops (allSpans doc) (false, []) h]
    unfold extract_bold_lines_from_section
    simp [hc]

/-- Witness for the C4 theorem at a concrete document. -/
theorem bold_lines_sentinel_fallback_witness :
    extract_bold_lines_from_section [[[[⟨"plain".data, "F".data, 0⟩]]]]
      "PROFILE".data ["EDUCATION".data] = [noBoldMsg "PROFILE".data] :=
  (bold_lines_sentinel_fallback [[[[⟨"plain".data, "F".data, 0⟩]]]]
    "PROFILE".data ["EDUCATION".data]).2.2 (by decide)

/-! ## Claim C9: phone extraction -/

theorem digit_isWordCh (c : Char) (hc : c.isDigit = true) : isWordCh c = true := by
  simp [isWordCh, Char.isAlphanum, hc]

theorem phoneFind_none_of_embedded (t : List Char)
    (H : ∀ i, i < t.length → windowDigits t i = true → neighborDigit t i = true) :
    ∀ (l : List Char) (i : Nat) (prev : Option Char),
      t.drop i = l →
      (i = 0 → prev = none) →
      (∀ j, i = j + 1 → prev = (t.drop j).head?) →
      phoneFind prev l = none := by
  intro l
  induction l with
  | nil => intro i prev _ _ _; rfl
  | cons c cs ih =>
    intro i prev hdrop hz hs
    have hi : i < t.length :=
      List.length_lt_of_drop_ne_nil (l := t) (n := i) (by rw [hdrop]; simp)
    have hAt : phoneAt prev (c :: cs) = false := by
      rcases hax : phoneAt prev (c :: cs)
      · rfl
      · exfalso
        unfold phoneAt at hax
        simp only [Bool.and_eq_true] at hax
        obtain ⟨⟨⟨hx1, hx2⟩, hx3⟩, hx4⟩ := hax
        have hwin : windowDigits t i = true := by
          unfold windowDigits
          rw [hdrop]
          simp only [Bool.and_eq_true]
          exact ⟨hx2, hx3⟩
        have hnb := H i hi hwin
        unfold neighborDigit at hnb
        rw [Bool.or_eq_true] at hnb
        rcases hnb with hnb | hnb
        · rcases i with _ | j
          · simp at hnb
          · rw [if_neg (by omega)] at hnb
            have hj1 : j + 1 - 1 = j := by omega
            rw [hj1] at hnb
            have hp : prev = (t.drop j).head? := hs j rfl
            rcases hh : (t.drop j).head? with _ | p
            · rw [hh] at hnb
              simp at hnb
            · rw [hh] at hnb hp
              simp only [Option.getD_some] at hnb
              rw [hp] at hx1
              simp only at hx1
              rw [digit_isWordCh p hnb] at hx1
              simp at hx1
        · have hdd : t.drop (i + 10) = (c :: cs).drop 10 := by
            rw [← hdrop, List.drop_drop]
          rw [hdd] at hnb
          rcases hh : ((c :: cs).drop 10).head? with _ | q
          · rw [hh] at hnb
            simp at hnb
          · rw [hh] at hnb hx4
            simp only [Option.getD_some] at hnb
            simp only at hx4
            rw [digit_isWordCh q hnb] at hx4
            simp at hx4
    rw [phoneFind, if_neg (by simp [hAt])]
    refine ih (i + 1) (some c) ?_ (by simp) ?_
    · rw [← List.drop_drop, hdrop]
      rfl
    · intro j hj
      have hji : j = i := by omega
      subst hji
      rw [hdrop]
      rfl

/-- C9: `extract_phone` returns the first standalone ten-digit run
(Scenario E positive case), an eleven-digit run yields `"Not found"`, and
in general whenever every ten-digit window of the text sits inside a
strictly longer digit run (some neighbor is a digit), the boundary
assertions `\b` can never hold and the result is `"Not found"`. -/
theorem extract_phone_standalone :
    extract_phone "Call 9876543210 now".data = "9876543210".data ∧
    extract_phone "12345678901".data = "Not found".data ∧
    (∀ t, (∀ i, i < t.length → windowDigits t i = true → neighborDigit t i = true) →
      extract_phone t = "Not found".data) := by
  refine ⟨by decide, by decide, ?_⟩
  intro t H
  rw [extract_phone, phoneFind_none_of_embedded t H t 0 none rfl (fun _ => rfl)
    (fun j hj => absurd hj (by omega))]

/-- Witness for the C9 theorem, discharging its embedded-window hypothesis
at a concrete eleven-digit text. -/
theorem extract_phone_standalone_witness :
    extract_phone "99999999999".data = "Not found".data :=
  extract_phone_standalone.2.2 "99999999999".data (by decide)

/-! ## Claim C6: education bucketing -/

theorem tagPick_cons (tg : EduB) (l : List Char) (o : Option EduB)
    (rest : List (List Char × Option EduB)) :
    tagPick tg ((l, o) :: rest) =
      if o = some tg then l :: tagPick tg rest else tagPick tg rest := by
  by_cases h : o = some tg <;> simp [tagPick, List.filterMap_cons, h]

theorem parse_education_go_spec :
    ∀ (ls : List (List Char)) (b i s : List (List Char)) (cur : Option EduB),
      parse_education_go b i s cur ls =
        (b ++ tagPick .bt (eduTags cur ls), i ++ tagPick .im (eduTags cur ls),
         s ++ tagPick .tenth (eduTags cur ls)) := by
  intro ls
  induction ls with
  | nil => intro b i s cur; simp [parse_education_go, eduTags, tagPick]
  | cons l ls' ih =>
    intro b i s cur
    rw [eduTags]
    rcases hstep : eduStep cur l with _ | tg
    · simp only [parse_education_go, hstep]
      rw [ih]
      simp [tagPick_cons]
    · rcases tg with _ | _ | _ <;>
      · simp only [parse_education_go, hstep]
        rw [ih]
        simp [tagPick_cons]

theorem eduTags_fst : ∀ (ls : List (List Char)) (cur : Option EduB),
    (eduTags cur ls).map Prod.fst = ls := by
  intro ls
  induction ls with
  | nil => intro cur; rfl
  | cons l ls' ih => intro cur; simp [eduTags, ih]

theorem tagPick_partition :
    ∀ tags : List (List Char × Option EduB),
      (tagPick .bt tags).length + (tagPick .im tags).length +
        (tagPick .tenth tags).length +
        (tags.filter (fun p => p.2 = none)).length = tags.length := by
  intro tags
  induction tags with
  | nil => rfl
  | cons p rest ih =>
    rcases p with ⟨l, o⟩
    rcases o with _ | tg
    · simp only [tagPick_cons, List.filter_cons]
      simp
      omega
    · rcases tg with _ | _ | _ <;>
      · simp only [tagPick_cons, List.filter_cons]
        simp
        omega

theorem parse_education_go_drop_untriggered :
    ∀ (pre post : List (List Char)), (∀ l ∈ pre, eduStep none l = none) →
      parse_education_go [] [] [] none (pre ++ post) =
        parse_education_go [] [] [] none post := by
  intro pre
  induction pre with
  | nil => intro post _; rfl
  | cons l pre' ih =>
    intro post h
    have hl : eduStep none l = none := h l (by simp)
    rw [List.cons_append, parse_education_go, hl]
    exact ih post (fun x hx => h x (by simp [hx]))

/-- C6: education bucketing on Scenario D; in general the three buckets are
exactly the lines of the tagged trace destined for each bucket (every
non-blank bullet-stripped line carries exactly one destination tag, the one
current after its own trigger test, so no line occurrence lands in two
buckets), the trace enumerates all lines, the four destinations partition
the line count, and lines before any trigger are dropped. -/
theorem parse_education_partition :
    (parse_education
        "Bachelor of Engineering\nXYZ College\nIntermediate\nABC Junior College".data =
      (["Bachelor of Engineering".data, "XYZ College".data],
       ["Intermediate".data, "ABC Junior College".data], ([] : List (List Char)))) ∧
    (∀ t, parse_education t =
      (tagPick .bt (eduTags none (eduLines t)), tagPick .im (eduTags none (eduLines t)),
       tagPick .tenth (eduTags none (eduLines t)))) ∧
    (∀ t, (eduTags none (eduLines t)).map Prod.fst = eduLines t) ∧
    (∀ t, (tagPick .bt (eduTags none (eduLines t))).length +
        (tagPick .im (eduTags none (eduLines t))).length +
        (tagPick .tenth (eduTags none (eduLines t))).length +
        ((eduTags none (eduLines t)).filter (fun p => p.2 = none)).length =
        (eduLines t).length) ∧
    (∀ pre post, (∀ l ∈ pre, eduStep none l = none) →
      parse_education_go [] [] [] none (pre ++ post) =
        parse_education_go [] [] [] none post) := by
  refine ⟨by decide, ?_, ?_, ?_, parse_education_go_drop_untriggered⟩
  · intro t
    rw [parse_education, parse_education_go_spec]
    simp
  · intro t
    exact eduTags_fst (eduLines t) none
  · intro t
    have hlen : (eduTags none (eduLines t)).length = (eduLines t).length := by
      conv_rhs => rw [← eduTags_fst (eduLines t) none]
      rw [List.length_map]
    exact (tagPick_partition (eduTags none (eduLines t))).trans hlen

/-- Witness for the C6 theorem, discharging the untriggered-prefix
hypothesis at a concrete line list. -/
theorem parse_education_partition_witness :
    parse_education_go [] [] [] none (["some heading".data] ++ ["B.Tech CS".data]) =
      parse_education_go [] [] [] none ["B.Tech CS".data] :=
  parse_education_partition.2.2.2.2 ["some heading".data] ["B.Tech CS".data] (by decide)

/-! ## Claims C7 and C10: skills parsing -/

theorem splitTrim_mem (line tok : List Char) (h : tok ∈ splitTrim line) :
    tok ≠ [] ∧ ',' ∉ tok ∧ pyStrip tok = tok := by
  unfold splitTrim at h
  rw [List.mem_filterMap] at h
  obtain ⟨item, hitem, htok⟩ := h
  by_cases hs : pyStrip item = []
  · simp [hs] at htok
  · simp [hs] at htok
    subst htok
    refine ⟨hs, ?_, pyStrip_idem item⟩
    intro hc
    exact pySplit_sep_not_mem ',' line item hitem (pyStrip_subset item ',' hc)

theorem splitTrim_fixed (tok : List Char) (h1 : tok ≠ []) (h2 : ',' ∉ tok)
    (h3 : pyStrip tok = tok) : splitTrim tok = [tok] := by
  unfold splitTrim
  rw [pySplit_of_not_mem ',' tok h2]
  simp [List.filterMap_cons, h3, h1]

theorem setKey_mem (m : List (List Char × List (List Char))) (k : List Char)
    (v : List (List Char)) (kv : List Char × List (List Char))
    (h : kv ∈ setKey m k v) : kv ∈ m ∨ kv = (k, v) := by
  induction m with
  | nil =>
    simp [setKey] at h
    exact Or.inr h
  | cons p m' ih =>
    rcases p with ⟨k0, v0⟩
    by_cases hk : k0 = k
    · simp [setKey, hk] at h
      rcases h with h | h
      · exact Or.inr (by simp [h])
      · exact Or.inl (by simp [h])
    · simp [setKey, hk] at h
      rcases h with h | h
      · exact Or.inl (by simp [h])
      · rcases ih h with h2 | h2
        · exact Or.inl (by simp [h2])
        · exact Or.inr h2

theorem skillsStep_fst_mem (st : List (List Char × List (List Char)) × Option (List Char))
    (raw : List Char) (kv : List Char × List (List Char))
    (h : kv ∈ (skillsStep st raw).1) :
    kv ∈ st.1 ∨ kv = (pyStrip raw, []) ∨
      ∃ p ∈ st.1, kv = (p.1, p.2 ++ splitTrim (pyStrip raw)) := by
  simp only [skillsStep] at h
  by_cases h0 : pyStrip raw = []
  · rw [if_pos h0] at h
    exact Or.inl h
  · rw [if_neg h0] at h
    by_cases h1 : isCatLine (pyStrip raw) = true
    · rw [if_pos h1] at h
      rcases setKey_mem st.1 (pyStrip raw) [] kv h with hm | hm
      · exact Or.inl hm
      · exact Or.inr (Or.inl hm)
    · rw [if_neg h1] at h
      rcases hcur : st.2 with _ | key
      · simp only [hcur] at h
        exact Or.inl h
      · simp only [hcur, addTokens, List.mem_map] at h
        obtain ⟨p, hp, hpe⟩ := h
        by_cases hpk : p.1 = key
        · rw [if_pos hpk] at hpe
          exact Or.inr (Or.inr ⟨p, hp, hpe.symm⟩)
        · rw [if_neg hpk] at hpe
          exact Or.inl (hpe ▸ hp)

theorem skillsFold_good :
    ∀ (lines : List (List Char)) (st : List (List Char × List (List Char)) × Option (List Char)),
      (∀ kv ∈ st.1, ∀ tok ∈ kv.2, tok ≠ [] ∧ ',' ∉ tok ∧ pyStrip tok = tok) →
      ∀ kv ∈ (List.foldl skillsStep st lines).1, ∀ tok ∈ kv.2,
        tok ≠ [] ∧ ',' ∉ tok ∧ pyStrip tok = tok := by
  intro lines
  induction lines with
  | nil => intro st h; exact h
  | cons raw lines' ih =>
    intro st h
    rw [List.foldl_cons]
    refine ih (skillsStep st raw) ?_
    intro kv hkv tok htok
    rcases skillsStep_fst_mem st raw kv hkv with hm | hm | ⟨p, hp, hpe⟩
    · exact h kv hm tok htok
    · subst hm
      simp at htok
    · subst hpe
      simp only at htok
      rw [List.mem_append] at htok
      rcases htok with htok | htok
      · exact h p hp tok htok
      · exact splitTrim_mem (pyStrip raw) tok htok

/-- C7: every token in every category list returned by `parse_skills` is a
fixed point of comma-split-and-trim — re-splitting it on commas and
trimming reproduces the one-element list — because each token is non-empty,
comma-free and already trimmed. -/
theorem parse_skills_tokens_fixed (t cat : List Char) (toks : List (List Char))
    (hmem : (cat, toks) ∈ parse_skills t) (tok : List Char) (htok : tok ∈ toks) :
    splitTrim tok = [tok] ∧ tok ≠ [] ∧ ',' ∉ tok ∧ pyStrip tok = tok := by
  have hg := skillsFold_good (pySplitlines t) ([], none) (by simp)
    (cat, toks) hmem tok htok
  exact ⟨splitTrim_fixed tok hg.1 hg.2.1 hg.2.2, hg⟩

/-- Witness for the C7 theorem at a concrete skills text. -/
theorem parse_skills_tokens_fixed_witness :
    splitTrim "Git".data = ["Git".data] ∧ "Git".data ≠ [] ∧
    ',' ∉ "Git".data ∧ pyStrip "Git".data = "Git".data :=
  parse_skills_tokens_fixed "Tools\nGit, Vim".data "Tools".data
    ["Git".data, "Vim".data] (by decide) "Git".data (by decide)

theorem getVal_setKey_nil (m : List (List Char × List (List Char))) (k : List Char) :
    getVal (setKey m k []) k = some [] := by
  induction m with
  | nil => simp [setKey, getVal]
  | cons p m' ih =>
    rcases p with ⟨k0, v0⟩
    by_cases hk : k0 = k
    · simp [setKey, hk, getVal]
    · simp [setKey, hk, getVal, ih]

/-- C10: whenever a category line recurs, the dict write `skills[current] = []`
resets that category to the empty list and parsing continues from there, so
the final binding holds only the tokens collected after the last occurrence
(earlier tokens are discarded); concretely, a `Tools` category filled with
`Git, Vim`, reopened and refilled, ends bound to the tokens after the second
occurrence only. -/
theorem parse_skills_duplicate_category_reset :
    (∀ (st : List (List Char × List (List Char)) × Option (List Char))
        (pre : List (List Char)) (cat : List Char) (post : List (List Char)),
      isCatLine (pyStrip cat) = true →
      List.foldl skillsStep st (pre ++ cat :: post) =
        List.foldl skillsStep
          (setKey (List.foldl skillsStep st pre).1 (pyStrip cat) [],
           some (pyStrip cat)) post) ∧
    (∀ m k, getVal (setKey m k []) k = some ([] : List (List Char))) ∧
    parse_skills "Tools\nGit, Vim\nTools\nDocker, K8s".data =
      [("Tools".data, ["Docker".data, "K8s".data])] := by
  refine ⟨?_, getVal_setKey_nil, by decide⟩
  intro st pre cat post hcat
  rw [List.foldl_append, List.foldl_cons]
  have hne : ¬ pyStrip cat = [] := by
    intro hh
    rw [hh] at hcat
    simp [isCatLine] at hcat
  rw [show skillsStep (List.foldl skillsStep st pre) cat =
      (setKey (List.foldl skillsStep st pre).1 (pyStrip cat) [], some (pyStrip cat)) from by
    simp only [skillsStep]
    rw [if_neg hne, if_pos hcat]]

/-- Witness for the C10 theorem, discharging the category-line hypothesis
at a concrete duplicated category. -/
theorem parse_skills_duplicate_category_reset_witness :
    List.foldl skillsStep (([], none) : List (List Char × List (List Char)) × Option (List Char))
      (["Tools".data, "Git, Vim".data] ++ "Tools".data :: ["Docker, K8s".data]) =
      List.foldl skillsStep
        (setKey (List.foldl skillsStep (([], none) :
            List (List Char × List (List Char)) × Option (List Char))
            ["Tools".data, "Git, Vim".data]).1 (pyStrip "Tools".data) [],
         some (pyStrip "Tools".data)) ["Docker, K8s".data] :=
  parse_skills_duplicate_category_reset.1 ([], none) ["Tools".data, "Git, Vim".data]
    "Tools".data ["Docker, K8s".data] (by decide)

/-! ## Claim C8: certificates -/

/-- C8 counterexample: `line.strip("•- ")` strips the bullet characters
from both ends of the line, so the trailing `" -"` of `"• AWS -"` is
removed as well — the claim expected the entry `"AWS -"` with trailing
characters preserved, but the code returns `"AWS"`. -/
theorem extract_certificates_trailing_cex :
    extract_certificates "• AWS -".data = ["AWS".data] ∧
    "AWS".data ≠ "AWS -".data := by
  refine ⟨by decide, by decide⟩

/-- C8 (amended): `extract_certificates` yields one entry per non-blank
line with the bullet characters (`•`, `-`, space) stripped from both ends
(not only the leading ones), a non-empty entry neither starts nor ends
with a bullet character, and a section text with no non-blank line yields
the empty list (an empty section, distinct from the `"Not found"`
sentinel). -/
theorem extract_certificates_amended :
    (∀ t, (∀ l ∈ pySplitlines t, pyStrip l = []) → extract_certificates t = []) ∧
    (∀ t, (extract_certificates t).length =
      ((pySplitlines t).filter (fun l => !(pyStrip l).isEmpty)).length) ∧
    (∀ t e, e ∈ extract_certificates t →
      (∀ a, e.head? = some a → a ∉ bulletChars) ∧
      (∀ a, e.getLast? = some a → a ∉ bulletChars)) := by
  refine ⟨?_, ?_, ?_⟩
  · intro t h
    unfold extract_certificates
    rw [List.filter_eq_nil_iff.mpr (fun l hl => by simp [h l hl])]
    rfl
  · intro t
    unfold extract_certificates
    rw [List.length_map]
  · intro t e he
    unfold extract_certificates at he
    rw [List.mem_map] at he
    obtain ⟨l, _, hl⟩ := he
    subst hl
    constructor
    · intro a ha
      have := stripEnds_head (· ∈ bulletChars) l a ha
      simpa using this
    · intro a ha
      have := stripEnds_getLast (· ∈ bulletChars) l a ha
      simpa using this

/-- Witness for the amended C8 theorem at concrete inputs. -/
theorem extract_certificates_amended_witness :
    extract_certificates "\n \n".data = [] ∧
    ((∀ a, "AWS".data.head? = some a → a ∉ bulletChars) ∧
     (∀ a, "AWS".data.getLast? = some a → a ∉ bulletChars)) :=
  ⟨extract_certificates_amended.1 "\n \n".data (by decide),
   extract_certificates_amended.2.2 "• AWS -".data "AWS".data (by decide)⟩

/-! ## Claim C5: totality and sentinel fallbacks -/

theorem emailAt_none (l : List Char) (h : '@' ∉ l) : emailAt l = none := by
  simp only [emailAt]
  rw [if_neg]
  rintro ⟨_, hh⟩
  rcases hd : l.drop (l.takeWhile emailChar).length with _ | ⟨c, cs⟩
  · rw [hd] at hh
    simp at hh
  · rw [hd] at hh
    injection hh with hh
    subst hh
    exact h (List.mem_of_mem_drop (by rw [hd]; simp))

theorem emailFind_none (l : List Char) (h : '@' ∉ l) : emailFind l = none := by
  induction l with
  | nil => rfl
  | cons c cs ih =>
    rw [emailFind, emailAt_none (c :: cs) h]
    exact ih (fun hm => h (by simp [hm]))

theorem phoneFind_none_of_no_digit :
    ∀ (l : List Char) (prev : Option Char), (∀ c ∈ l, c.isDigit = false) →
      phoneFind prev l = none := by
  intro l
  induction l with
  | nil => intro prev _; rfl
  | cons c cs ih =>
    intro prev h
    have hAt : phoneAt prev (c :: cs) = false := by
      rcases hax : phoneAt prev (c :: cs)
      · rfl
      · exfalso
        unfold phoneAt at hax
        simp only [Bool.and_eq_true] at hax
        obtain ⟨⟨⟨_, _⟩, hx3⟩, _⟩ := hax
        rw [List.all_eq_true] at hx3
        have : c.isDigit = true := hx3 c (by simp [List.take_succ_cons])
        rw [h c (by simp)] at this
        exact Bool.false_ne_true this
    rw [phoneFind, if_neg (by simp [hAt])]
    exact ih (some c) (fun x hx => h x (by simp [hx]))

theorem locFind_none :
    ∀ (l : List Char) (prev : Option Char), ¬ "Rajahmundry".data <:+: l →
      locFind prev l = none := by
  intro l
  induction l with
  | nil => intro prev _; rfl
  | cons c cs ih =>
    intro prev h
    have hpre : List.isPrefixOf "Rajahmundry".data (c :: cs) = false := by
      rcases hb : List.isPrefixOf "Rajahmundry".data (c :: cs)
      · rfl
      · exact absurd (List.isPrefixOf_iff_prefix.mp hb).isInfix h
    simp only [locFind]
    rw [if_neg (by simp [hpre])]
    exact ih (some c) (fun hinf => h (List.infix_cons hinf))

theorem langFind_none (l : List Char) (h : ¬ "LANGUAGES\n".data <:+: l) :
    langFind l = none := by
  induction l with
  | nil => rfl
  | cons c cs ih =>
    have hpre : List.isPrefixOf "LANGUAGES\n".data (c :: cs) = false := by
      rcases hb : List.isPrefixOf "LANGUAGES\n".data (c :: cs)
      · rfl
      · exact absurd (List.isPrefixOf_iff_prefix.mp hb).isInfix h
    rw [langFind, if_neg (by simp [hpre])]
    exact ih (fun hinf => h (List.infix_cons hinf))

theorem skillsFold_blank :
    ∀ (lines : List (List Char)) (st : List (List Char × List (List Char)) × Option (List Char)),
      (∀ l ∈ lines, pyStrip l = []) → List.foldl skillsStep st lines = st := by
  intro lines
  induction lines with
  | nil => intro st _; rfl
  | cons raw lines' ih =>
    intro st h
    rw [List.foldl_cons]
    have hstep : skillsStep st raw = st := by
      simp only [skillsStep]
      rw [if_pos (h raw (by simp))]
    rw [hstep]
    exact ih st (fun l hl => h l (by simp [hl]))

/-- C5 counterexample: `extract_section` is not total over every heading —
the heading is interpolated unescaped into the pattern, and the heading
`"("` makes `re.compile` fail with `re.error: missing ), unterminated
subpattern`, so the call raises instead of returning a value. -/
theorem extract_section_exc_raises_on_paren :
    extract_section_exc "x".data "(".data [] = .error "re.error".data := rfl

/-- C5 (amended): every field extractor is total on arbitrary text and
returns its sentinel or default on a non-match; `extract_section` is total
in the text for every heading and stop list drawn from the regex-literal
alphabet (letters, digits, spaces — the case at every call site), though
not for arbitrary headings. -/
theorem extractors_total_amended :
    (∀ t h S, h.all reLiteralChar = true → (∀ s ∈ S, s.all reLiteralChar = true) →
      extract_section_exc t h S = .ok (extract_section t h S)) ∧
    (∀ t, '@' ∉ t → extract_email t = "Not found".data) ∧
    (∀ t, (∀ c ∈ t, c.isDigit = false) → extract_phone t = "Not found".data) ∧
    (∀ t, t.takeWhile nameChar = [] → extract_name t = "Not found".data) ∧
    (∀ t, ¬ "Rajahmundry".data <:+: t → extract_location t = "Not found".data) ∧
    (∀ t, ¬ "LANGUAGES\n".data <:+: t → extract_languages t = ["Not found".data]) ∧
    (∀ t, (∀ l ∈ pySplitlines t, pyStrip l = []) →
      parse_skills t = [] ∧ parse_education t = ([], [], []) ∧
        extract_certificates t = []) := by
  refine ⟨?_, ?_, ?_, ?_, ?_, ?_, ?_⟩
  · intro t h S h1 h2
    unfold extract_section_exc
    rw [if_pos]
    rw [h1, List.all_eq_true.mpr h2]
    rfl
  · intro t h
    rw [extract_email, emailFind_none t h]
  · intro t h
    rw [extract_phone, phoneFind_none_of_no_digit t none h]
  · intro t h
    rw [extract_name]
    rw [h]
    rfl
  · intro t h
    rw [extract_location, locFind_none t none h]
  · intro t h
    rw [extract_languages, langFind_none t h]
  · intro t h
    have hnil : (pySplitlines t).filter (fun l => !(pyStrip l).isEmpty) = [] :=
      List.filter_eq_nil_iff.mpr (fun l hl => by simp [h l hl])
    refine ⟨?_, ?_, ?_⟩
    · rw [parse_skills, skillsFold_blank (pySplitlines t) ([], none)
        (fun l hl => h l hl)]
    · rw [parse_education, eduLines, hnil]
      rfl
    · rw [extract_certificates, hnil]
      rfl

/-- Witness for the amended C5 theorem: each conjunct applied at a concrete
non-matching input. -/
theorem extractors_total_witness :
    extract_section_exc "x".data "PROFILE".data ["EDUCATION".data] =
      .ok (extract_section "x".data "PROFILE".data ["EDUCATION".data]) ∧
    extract_email "no mail here".data = "Not found".data ∧
    extract_phone "abc".data = "Not found".data ∧
    extract_name "123".data = "Not found".data ∧
    extract_location "Hyderabad".data = "Not found".data ∧
    extract_languages "nothing".data = ["Not found".data] ∧
    (parse_skills " \n ".data = [] ∧ parse_education " \n ".data = ([], [], []) ∧
      extract_certificates " \n ".data = []) :=
  ⟨extractors_total_amended.1 "x".data "PROFILE".data ["EDUCATION".data]
    (by decide) (by decide),
   extractors_total_amended.2.1 "no mail here".data (by decide),
   extractors_total_amended.2.2.1 "abc".data (by decide),
   extractors_total_amended.2.2.2.1 "123".data (by decide),
   extractors_total_amended.2.2.2.2.1 "Hyderabad".data (by decide),
   extractors_total_amended.2.2.2.2.2.1 "nothing".data (by decide),
   extractors_total_amended.2.2.2.2.2.2 " \n ".data (by decide)⟩

end ResumeAnalyzer
